import Mathlib

/-!
Verification of the linked-list queue in `queue.c` (lab0-c).

The C queue is a singly linked list of nodes (`list_ele_t`: a payload
string plus a `next` pointer) with a `queue_t` header holding `head`,
`tail` and `size`.  The shallow embedding below represents

  * a node by its address (`id : Nat`, the value `malloc` returned) and
    the payload it owns (`value : List Char`, the NUL-free byte string);
  * the chain of nodes reachable from `q->head` by a `List list_ele_t`
    (list order = `next` order, the last node's `next` being NULL);
  * the `tail` field by the address it stores (`Option Nat`, `none` =
    NULL) — kept separate from the chain because the code can leave it
    dangling;
  * a possibly-NULL `queue_t *` by `Option queue_t`;
  * `malloc` results by explicit parameters (`mNode : Option Nat` is the
    address returned for the node, `none` = allocation failure;
    `mVal : Bool` is the success of the payload allocation);
  * the bytes `strlcpy`/`snprintf` writes into a caller buffer by the
    `List Char` actually written (`snprintf(dst, sz, "%s", src)` writes
    `min (length src) (sz-1)` bytes plus a NUL when `sz > 0`, nothing
    when `sz = 0`).
-/

/-- Sign of C `strcmp` on NUL-free byte strings: `-1`, `0` or `1`.
At the end of a C string the byte is NUL (0), smaller than any payload
byte, so a proper prefix compares less. -/
def strcmp : List Char → List Char → Int
  | [], [] => 0
  | [], _ :: _ => -1
  | _ :: _, [] => 1
  | a :: s, b :: t =>
      if a.toNat < b.toNat then -1
      else if b.toNat < a.toNat then 1
      else strcmp s t

/-- A list node: its address and the payload string it owns.
(The C struct stores `value` and `next`; `next` is represented by the
position in the chain list.) -/
structure list_ele_t where
  id : Nat
  value : List Char
deriving DecidableEq, Repr

/-- `list_cmp(l1, l2)` from queue.c: true iff `strcmp(l1->value, l2->value) < 0`. -/
def list_cmp (l1 l2 : list_ele_t) : Bool :=
  if strcmp l1.value l2.value ≥ 0 then false else true

/-- `merge` from queue.c: merge two chains, taking the head of the first
chain only when it compares strictly less. -/
def merge : List list_ele_t → List list_ele_t → List list_ele_t
  | l1, [] => l1
  | [], l2 => l2
  | h1 :: t1, h2 :: t2 =>
      if list_cmp h1 h2 then h1 :: merge t1 (h2 :: t2)
      else h2 :: merge (h1 :: t1) t2
termination_by l1 l2 => l1.length + l2.length

/-- Iterations of the slow/fast split loop in `merge_sort`, as a function
of the list the `fast` cursor starts on (`head->next`): the loop runs
while `fast && fast->next`, advancing `fast` two nodes per step. -/
def splitSteps : List list_ele_t → Nat
  | _ :: _ :: rest => splitSteps rest + 1
  | _ => 0

theorem two_mul_splitSteps_le : ∀ l : List list_ele_t, 2 * splitSteps l ≤ l.length
  | [] => by simp [splitSteps]
  | [_] => by simp [splitSteps]
  | _ :: _ :: rest => by
      have ih := two_mul_splitSteps_le rest
      simp only [splitSteps, List.length_cons]
      omega

/-- `merge_sort` from queue.c.  The slow cursor starts at the head and
advances once per loop iteration, so after the loop it sits at index
`splitSteps (head->next…)`; severing `slow->next` makes the first half
the first `splitSteps … + 1` nodes and the second half the rest. -/
def merge_sort : List list_ele_t → List list_ele_t
  | [] => []
  | [a] => [a]
  | a :: b :: rest =>
      let k := splitSteps (b :: rest) + 1
      merge (merge_sort ((a :: b :: rest).take k)) (merge_sort ((a :: b :: rest).drop k))
termination_by l => l.length
decreasing_by
  · have h := two_mul_splitSteps_le (b :: rest)
    simp only [List.length_take, List.length_cons] at *
    omega
  · have h := two_mul_splitSteps_le (b :: rest)
    simp only [List.length_drop, List.length_cons] at *
    omega

/-- The `queue_t` header: the chain reachable from `head`, the address
stored in `tail` (`none` = NULL), and the `size` field (a C `int`). -/
structure queue_t where
  head : List list_ele_t
  tail : Option Nat
  size : Int
deriving DecidableEq, Repr

/-- `q_new` from queue.c (the successful allocation): an empty queue. -/
def q_new : queue_t := { head := [], tail := none, size := 0 }

/-- The payload sequence of a possibly-NULL queue, head to tail. -/
def q_payloads : Option queue_t → List (List Char)
  | none => []
  | some q => q.head.map list_ele_t.value

/-- Bytes written by `strlcpy(dst, src, sz)` — i.e. by
`snprintf(dst, sz, "%s", src)`: nothing when `sz = 0`, otherwise the
first `sz - 1` payload bytes (or all of them if fewer) plus a NUL. -/
def strlcpyWritten (src : List Char) (sz : Nat) : List Char :=
  if sz = 0 then [] else src.take (sz - 1) ++ [Char.ofNat 0]

/-- `q_insert_head` from queue.c.  `mNode` is the address `malloc`
returned for the node (`none` = failure), `mVal` the success of the
payload allocation.  Returns the updated queue pointer, the success
flag, and the addresses allocated by this call that are still allocated
on return (the failure branch frees both allocations; on success the
node — owning the payload copy — survives inside the queue). -/
def q_insert_head (q : Option queue_t) (s : List Char) (mNode : Option Nat) (mVal : Bool) :
    Option queue_t × Bool × List Nat :=
  match q with
  | none => (none, false, [])
  | some q =>
    match mNode, mVal with
    | some id, true =>
        -- strlcpy(val, s, strlen(s)+1) copies the whole payload
        let newHead : list_ele_t := { id := id, value := s }
        (some { head := newHead :: q.head,
                tail := if q.size = 0 then some id else q.tail,
                size := q.size + 1 },
         true, [id])
    | _, _ => (some q, false, [])

/-- `q_insert_tail` from queue.c, same allocation conventions as
`q_insert_head`.  In the non-empty branch the code links the new node
after the node `tail` points to; in every reachable state with
`size ≠ 0` that is the last node of the chain, so the branch is the
chain with the new node appended. -/
def q_insert_tail (q : Option queue_t) (s : List Char) (mNode : Option Nat) (mVal : Bool) :
    Option queue_t × Bool × List Nat :=
  match q with
  | none => (none, false, [])
  | some q =>
    match mNode, mVal with
    | some id, true =>
        let newTail : list_ele_t := { id := id, value := s }
        if q.size = 0 then
          (some { head := [newTail], tail := some id, size := q.size + 1 }, true, [id])
        else
          (some { head := q.head ++ [newTail], tail := some id, size := q.size + 1 }, true, [id])
    | _, _ => (some q, false, [])

/-- `q_remove_head` from queue.c.  `spPresent` models `sp != NULL`;
`bufsize` is the buffer capacity.  Returns the updated queue pointer,
the success flag, and the bytes written into `sp`.  Note the code
advances `head` and decrements `size` but never touches `tail`. -/
def q_remove_head (q : Option queue_t) (spPresent : Bool) (bufsize : Nat) :
    Option queue_t × Bool × List Char :=
  match q with
  | none => (none, false, [])
  | some q =>
    if spPresent = false then (some q, false, [])
    else
      match q.head with
      | [] => (some q, false, [])
      | rmElem :: rest =>
          let strLen := rmElem.value.length + 1
          let realBufSize := if bufsize > strLen then strLen else bufsize
          (some { head := rest, tail := q.tail, size := q.size - 1 },
           true, strlcpyWritten rmElem.value realBufSize)

/-- `q_size` from queue.c. -/
def q_size : Option queue_t → Int
  | none => 0
  | some q => q.size

/-- The pointer-reversal loop of `q_reverse`: `prev` accumulates the
already-relinked prefix while `q->head` walks the remaining chain. -/
def reverseLoop : List list_ele_t → List list_ele_t → List list_ele_t
  | [], prev => prev
  | h :: rest, prev => reverseLoop rest (h :: prev)

/-- `q_reverse` from queue.c: no-op when `q` is NULL or empty; otherwise
the loop reverses every `next` link, then `q->head = q->tail` (in every
reachable non-empty state `tail` is the chain's last node, the head of
the relinked chain) and `q->tail = tmp` (the old first node). -/
def q_reverse : Option queue_t → Option queue_t
  | none => none
  | some q =>
    match q.head with
    | [] => some q
    | tmp :: rest =>
        some { head := reverseLoop (tmp :: rest) [],
               tail := some tmp.id,
               size := q.size }

/-- `q_sort` from queue.c: no-op when `q` is NULL or the chain has at
most one node; otherwise sort the chain with `merge_sort` and re-derive
`tail` by walking to the last node. -/
def q_sort : Option queue_t → Option queue_t
  | none => none
  | some q =>
    match q.head with
    | [] => some q
    | [_] => some q
    | a :: b :: rest =>
        let sorted := merge_sort (a :: b :: rest)
        some { head := sorted,
               tail := Option.map list_ele_t.id sorted.getLast?,
               size := q.size }

/-- Non-strict byte-string order: `strcmp s t ≤ 0`. -/
def strLe (s t : List Char) : Prop := strcmp s t ≤ 0

instance (s t : List Char) : Decidable (strLe s t) := by
  unfold strLe; infer_instance

/-- Order on nodes induced by `strcmp` on their payloads. -/
def nodeLe (a b : list_ele_t) : Prop := strLe a.value b.value

instance (a b : list_ele_t) : Decidable (nodeLe a b) := by
  unfold nodeLe; infer_instance

/-! ### Properties of `strcmp` -/

theorem strcmp_neg : ∀ s t : List Char, strcmp t s = -strcmp s t
  | [], [] => rfl
  | [], _ :: _ => rfl
  | _ :: _, [] => rfl
  | a :: s, b :: t => by
      have ih := strcmp_neg s t
      simp only [strcmp]
      split_ifs <;> omega

theorem strcmp_trans_le :
    ∀ a b c : List Char, strcmp a b ≤ 0 → strcmp b c ≤ 0 → strcmp a c ≤ 0
  | [], _, [] => by intro _ _; simp [strcmp]
  | [], _, _ :: _ => by intro _ _; simp [strcmp]
  | _ :: _, [], _ => by intro h _; simp [strcmp] at h
  | _ :: _, _ :: _, [] => by intro _ h; simp [strcmp] at h
  | a :: as, b :: bs, c :: cs => by
      intro h1 h2
      simp only [strcmp] at h1 h2 ⊢
      split_ifs at h1 h2 ⊢ <;>
        first | omega | exact strcmp_trans_le as bs cs h1 h2

theorem strLe_trans {a b c : List Char} (h1 : strLe a b) (h2 : strLe b c) : strLe a c :=
  strcmp_trans_le a b c h1 h2

theorem nodeLe_trans {a b c : list_ele_t} (h1 : nodeLe a b) (h2 : nodeLe b c) : nodeLe a c :=
  strLe_trans h1 h2

theorem nodeLe_of_list_cmp {a b : list_ele_t} (h : list_cmp a b = true) : nodeLe a b := by
  simp only [list_cmp] at h
  split_ifs at h
  simp only [nodeLe, strLe]
  omega

theorem nodeLe_of_not_list_cmp {a b : list_ele_t} (h : ¬ list_cmp a b = true) : nodeLe b a := by
  simp only [list_cmp] at h
  split_ifs at h with hge
  · simp only [nodeLe, strLe, strcmp_neg a.value b.value]
    omega
  · simp at h

/-! ### Properties of `merge` and `merge_sort` -/

theorem merge_perm : ∀ l1 l2 : List list_ele_t, (merge l1 l2).Perm (l1 ++ l2)
  | l1, [] => by simp [merge]
  | [], h2 :: t2 => by simp [merge]
  | h1 :: t1, h2 :: t2 => by
      rw [merge]
      by_cases hc : list_cmp h1 h2
      · rw [if_pos hc]
        exact ((merge_perm t1 (h2 :: t2)).cons h1)
      · rw [if_neg hc]
        exact ((merge_perm (h1 :: t1) t2).cons h2).trans List.perm_middle.symm
termination_by l1 l2 => l1.length + l2.length

theorem merge_sorted :
    ∀ l1 l2 : List list_ele_t, l1.Pairwise nodeLe → l2.Pairwise nodeLe →
      (merge l1 l2).Pairwise nodeLe
  | l1, [] => by intro h _; simpa [merge] using h
  | [], h2 :: t2 => by intro _ h; simpa [merge] using h
  | h1 :: t1, h2 :: t2 => by
      intro hs1 hs2
      rw [merge]
      by_cases hc : list_cmp h1 h2
      · rw [if_pos hc]
        refine List.pairwise_cons.2 ⟨?_, merge_sorted t1 (h2 :: t2) (hs1.sublist (List.sublist_cons_self h1 t1)) hs2⟩
        intro x hx
        rcases List.mem_append.1 ((merge_perm t1 (h2 :: t2)).mem_iff.1 hx) with hx | hx
        · exact (List.pairwise_cons.1 hs1).1 x hx
        · rcases List.mem_cons.1 hx with rfl | hx
          · exact nodeLe_of_list_cmp hc
          · exact nodeLe_trans (nodeLe_of_list_cmp hc) ((List.pairwise_cons.1 hs2).1 x hx)
      · rw [if_neg hc]
        refine List.pairwise_cons.2 ⟨?_, merge_sorted (h1 :: t1) t2 hs1 (hs2.sublist (List.sublist_cons_self h2 t2))⟩
        intro x hx
        rcases List.mem_append.1 ((merge_perm (h1 :: t1) t2).mem_iff.1 hx) with hx | hx
        · rcases List.mem_cons.1 hx with rfl | hx
          · exact nodeLe_of_not_list_cmp hc
          · exact nodeLe_trans (nodeLe_of_not_list_cmp hc) ((List.pairwise_cons.1 hs1).1 x hx)
        · exact (List.pairwise_cons.1 hs2).1 x hx
termination_by l1 l2 => l1.length + l2.length

theorem merge_sort_perm : ∀ l : List list_ele_t, (merge_sort l).Perm l
  | [] => by simp [merge_sort]
  | [a] => by simp [merge_sort]
  | a :: b :: rest => by
      rw [merge_sort]
      have hk := two_mul_splitSteps_le (b :: rest)
      have h1 := merge_sort_perm ((a :: b :: rest).take (splitSteps (b :: rest) + 1))
      have h2 := merge_sort_perm ((a :: b :: rest).drop (splitSteps (b :: rest) + 1))
      exact ((merge_perm _ _).trans ((h1.append h2).trans (by rw [List.take_append_drop])))
termination_by l => l.length
decreasing_by
  · simp only [List.length_take, List.length_cons] at *
    omega
  · simp only [List.length_drop, List.length_cons] at *
    omega

theorem merge_sort_sorted : ∀ l : List list_ele_t, (merge_sort l).Pairwise nodeLe
  | [] => by simp [merge_sort]
  | [a] => by simp [merge_sort]
  | a :: b :: rest => by
      rw [merge_sort]
      have hk := two_mul_splitSteps_le (b :: rest)
      exact merge_sorted _ _
        (merge_sort_sorted ((a :: b :: rest).take (splitSteps (b :: rest) + 1)))
        (merge_sort_sorted ((a :: b :: rest).drop (splitSteps (b :: rest) + 1)))
termination_by l => l.length
decreasing_by
  · simp only [List.length_take, List.length_cons] at *
    omega
  · simp only [List.length_drop, List.length_cons] at *
    omega

/-! ### Properties of the reversal loop -/

theorem reverseLoop_eq : ∀ l acc : List list_ele_t, reverseLoop l acc = l.reverse ++ acc
  | [], acc => by simp [reverseLoop]
  | h :: rest, acc => by
      simp [reverseLoop, reverseLoop_eq rest (h :: acc)]

/-! ### Claims -/

/-- C1: the structural invariant does NOT survive a remove-from-head that
empties the queue.  Running create; insert-head "a" (node address 0);
remove-from-head leaves `size = 0` and `head` absent, but the `tail`
field still holds the address of the (freed) node: `q_remove_head`
never clears `tail`. -/
theorem C1_remove_head_leaves_tail_stale :
    (q_remove_head ((q_insert_head (some q_new) ['a'] (some 0) true).1) true 2).1
      = some { head := [], tail := some 0, size := 0 } ∧
    q_size ((q_remove_head ((q_insert_head (some q_new) ['a'] (some 0) true).1) true 2).1)
      = 0 := by
  constructor <;> rfl

/-- C2 counterexample: sorting the two-node queue whose nodes (addresses
0 and 1, in that order) both hold payload "a" yields the nodes in order
1, 0 — elements with equal payloads do NOT retain their relative order,
so the sort is not stable and the merge step does not prefer the left
sublist on ties. -/
theorem C2_sort_swaps_equal_payload_nodes :
    q_sort (some { head := [⟨0, ['a']⟩, ⟨1, ['a']⟩], tail := some 1, size := 2 })
      = some { head := [⟨1, ['a']⟩, ⟨0, ['a']⟩], tail := some 0, size := 2 } := by
  simp [q_sort, merge_sort, splitSteps, merge, list_cmp, strcmp]

/-- C2 amended: when the two heads compare equal under byte-wise string
comparison, the merge step takes the head of the RIGHT/second-argument
sublist (`list_cmp` is true only for strictly-less, so ties fall into
the else branch), which is why equal-payload nodes do not retain their
relative order. -/
theorem C2_merge_ties_take_right_head (a b : list_ele_t) (l1 l2 : List list_ele_t)
    (h : strcmp a.value b.value = 0) :
    merge (a :: l1) (b :: l2) = b :: merge (a :: l1) l2 := by
  rw [merge]
  simp [list_cmp, h]

theorem C2_merge_ties_take_right_head_witness :
    merge [({ id := 0, value := ['a'] } : list_ele_t)] [{ id := 1, value := ['a'] }]
      = { id := 1, value := ['a'] } :: merge [({ id := 0, value := ['a'] } : list_ele_t)] [] :=
  C2_merge_ties_take_right_head ⟨0, ['a']⟩ ⟨1, ['a']⟩ [] [] (by decide)

/-- C6: remove-from-head returns false and leaves the queue unmutated
iff the queue is absent, the output buffer is absent, or the queue is
empty; in every other case it returns true and removes exactly the head
node (advancing `head`, keeping `tail`, decrementing `size`). -/
theorem C6_remove_head_failure_iff (q : Option queue_t) (sp : Bool) (bufsize : Nat) :
    (((q_remove_head q sp bufsize).2.1 = false ∧ (q_remove_head q sp bufsize).1 = q) ↔
        (q = none ∨ sp = false ∨ ∃ qq : queue_t, q = some qq ∧ qq.head = [])) ∧
    (∀ (qq : queue_t) (a : list_ele_t) (rest : List list_ele_t),
      q = some qq → sp = true → qq.head = a :: rest →
        (q_remove_head q sp bufsize).2.1 = true ∧
        (q_remove_head q sp bufsize).1
          = some { head := rest, tail := qq.tail, size := qq.size - 1 }) := by
  refine ⟨⟨?_, ?_⟩, ?_⟩
  · rintro ⟨hf, _⟩
    rcases q with _ | qq
    · exact Or.inl rfl
    cases sp
    · exact Or.inr (Or.inl rfl)
    · refine Or.inr (Or.inr ⟨qq, rfl, ?_⟩)
      rcases hh : qq.head with _ | ⟨a, rest⟩
      · rfl
      · simp [q_remove_head, hh] at hf
  · rintro (rfl | rfl | ⟨qq, rfl, hh⟩)
    · exact ⟨rfl, rfl⟩
    · rcases q with _ | qq
      · exact ⟨rfl, rfl⟩
      · exact ⟨rfl, rfl⟩
    · cases sp
      · exact ⟨rfl, rfl⟩
      · simp [q_remove_head, hh]
  · rintro qq a rest rfl rfl hh
    simp [q_remove_head, hh]

theorem C6_remove_head_failure_iff_witness :
    (q_remove_head (some q_new) true 1).2.1 = false ∧
    (q_remove_head (some q_new) true 1).1 = some q_new :=
  (C6_remove_head_failure_iff (some q_new) true 1).1.mpr (Or.inr (Or.inr ⟨q_new, rfl, rfl⟩))

/-- C7: on allocation failure of the node or of the payload copy, both
insert operations free whatever they allocated (no address allocated by
the call survives), return false and leave the queue unchanged; with an
absent queue they return false (before allocating anything). -/
theorem C7_insert_alloc_failure_rollback (q : queue_t) (s : List Char)
    (mNode : Option Nat) (mVal : Bool) (h : mNode = none ∨ mVal = false) :
    q_insert_head (some q) s mNode mVal = (some q, false, []) ∧
    q_insert_tail (some q) s mNode mVal = (some q, false, []) ∧
    q_insert_head none s mNode mVal = (none, false, []) ∧
    q_insert_tail none s mNode mVal = (none, false, []) := by
  rcases h with rfl | rfl
  · cases mVal <;> exact ⟨rfl, rfl, rfl, rfl⟩
  · cases mNode <;> exact ⟨rfl, rfl, rfl, rfl⟩

theorem C7_insert_alloc_failure_rollback_witness :
    q_insert_head (some q_new) ['a'] none true = (some q_new, false, []) ∧
    q_insert_tail (some q_new) ['a'] none true = (some q_new, false, []) ∧
    q_insert_head none ['a'] none true = (none, false, []) ∧
    q_insert_tail none ['a'] none true = (none, false, []) :=
  C7_insert_alloc_failure_rollback q_new ['a'] none true (Or.inl rfl)

/-- C10: remove-from-head with buffer capacity 0 on a non-empty queue
with a present buffer still removes the head and returns true, but
writes no byte at all (the copy size becomes 0 and `snprintf` with size
0 writes nothing, not even a terminator). -/
theorem C10_remove_head_bufsize_zero (q : queue_t) (a : list_ele_t) (rest : List list_ele_t)
    (hq : q.head = a :: rest) :
    q_remove_head (some q) true 0
      = (some { head := rest, tail := q.tail, size := q.size - 1 }, true, []) := by
  simp [q_remove_head, hq, strlcpyWritten]

theorem C10_remove_head_bufsize_zero_witness :
    q_remove_head (some { head := [⟨0, ['a']⟩], tail := some 0, size := 1 }) true 0
      = (some { head := [], tail := some 0, size := 0 }, true, []) :=
  C10_remove_head_bufsize_zero { head := [⟨0, ['a']⟩], tail := some 0, size := 1 }
    ⟨0, ['a']⟩ [] rfl

/-- The bytes actually written for a head payload `s` and capacity
`bufsize ≥ 1`: the first `bufsize - 1` payload bytes (all of them if
fewer) plus a NUL. -/
theorem strlcpyWritten_real (s : List Char) (bufsize : Nat) (hb : 1 ≤ bufsize) :
    strlcpyWritten s (if bufsize > s.length + 1 then s.length + 1 else bufsize)
      = s.take (bufsize - 1) ++ [Char.ofNat 0] := by
  by_cases h : bufsize > s.length + 1
  · rw [if_pos h]
    unfold strlcpyWritten
    rw [if_neg (by omega), Nat.add_sub_cancel, List.take_length,
        List.take_of_length_le (by omega)]
  · rw [if_neg h]
    unfold strlcpyWritten
    rw [if_neg (by omega)]

theorem q_reverse_isSome (qq : queue_t) : ∃ qq1, q_reverse (some qq) = some qq1 := by
  rcases hh : qq.head with _ | ⟨tmp, rest⟩ <;> simp [q_reverse, hh]

theorem q_reverse_payloads (qq : queue_t) :
    q_payloads (q_reverse (some qq)) = (q_payloads (some qq)).reverse := by
  rcases hh : qq.head with _ | ⟨tmp, rest⟩
  · simp [q_reverse, hh, q_payloads]
  · simp [q_reverse, hh, q_payloads, reverseLoop_eq]

/-- C3: sort is a no-op on an absent queue and on queues with fewer than
two elements; on a queue with at least two elements it rearranges the
payload sequence into a permutation of itself that is non-decreasing
under byte-wise string comparison, leaving `size` unchanged. -/
theorem C3_q_sort_correct (q : queue_t) :
    q_sort none = none ∧
    (q.head.length ≤ 1 → q_sort (some q) = some q) ∧
    (2 ≤ q.head.length →
      ∃ q' : queue_t, q_sort (some q) = some q' ∧
        (q'.head.map list_ele_t.value).Perm (q.head.map list_ele_t.value) ∧
        (q'.head.map list_ele_t.value).Pairwise strLe ∧
        q'.size = q.size) := by
  refine ⟨rfl, ?_, ?_⟩
  · intro h
    rcases q with ⟨head, tl, sz⟩
    rcases head with _ | ⟨a, head⟩
    · rfl
    rcases head with _ | ⟨b, rest⟩
    · rfl
    · simp at h
  · intro h
    rcases q with ⟨head, tl, sz⟩
    rcases head with _ | ⟨a, head⟩
    · simp at h
    rcases head with _ | ⟨b, rest⟩
    · simp at h
    refine ⟨_, rfl, ?_, ?_, rfl⟩
    · exact (merge_sort_perm (a :: b :: rest)).map list_ele_t.value
    · exact List.pairwise_map.2 (merge_sort_sorted (a :: b :: rest))

theorem C3_q_sort_correct_witness :
    ∃ q' : queue_t,
      q_sort (some { head := [⟨0, ['b']⟩, ⟨1, ['a']⟩], tail := some 1, size := 2 }) = some q' ∧
      (q'.head.map list_ele_t.value).Perm [['b'], ['a']] ∧
      (q'.head.map list_ele_t.value).Pairwise strLe ∧
      q'.size = 2 :=
  (C3_q_sort_correct { head := [⟨0, ['b']⟩, ⟨1, ['a']⟩], tail := some 1, size := 2 }).2.2
    (by simp)

/-- C4: inserting one element into an empty queue and immediately
removing from the head succeeds, writes exactly the inserted payload
truncated to the buffer capacity, and returns the queue to empty
(size 0, no payloads); a subsequent successful insert-at-head or
insert-at-tail then yields a correct one-element queue whose head chain
is the single new node and whose tail is that node's address — the
stale tail is never observed. -/
theorem C4_insert_then_remove (s t : List Char) (id id2 : Nat) (bufsize : Nat)
    (hb : 1 ≤ bufsize) :
    (q_remove_head ((q_insert_head (some q_new) s (some id) true).1) true bufsize).2.1
      = true ∧
    (q_remove_head ((q_insert_head (some q_new) s (some id) true).1) true bufsize).2.2
      = s.take (bufsize - 1) ++ [Char.ofNat 0] ∧
    q_size (q_remove_head ((q_insert_head (some q_new) s (some id) true).1) true bufsize).1
      = 0 ∧
    q_payloads
        (q_remove_head ((q_insert_head (some q_new) s (some id) true).1) true bufsize).1
      = [] ∧
    (q_insert_head
        (q_remove_head ((q_insert_head (some q_new) s (some id) true).1) true bufsize).1
        t (some id2) true).1
      = some { head := [⟨id2, t⟩], tail := some id2, size := 1 } ∧
    (q_insert_tail
        (q_remove_head ((q_insert_head (some q_new) s (some id) true).1) true bufsize).1
        t (some id2) true).1
      = some { head := [⟨id2, t⟩], tail := some id2, size := 1 } := by
  refine ⟨rfl, ?_, rfl, rfl, rfl, rfl⟩
  exact strlcpyWritten_real s bufsize hb

theorem C4_insert_then_remove_witness :
    (q_remove_head ((q_insert_head (some q_new) ['x', 'y'] (some 0) true).1) true 2).2.1
      = true ∧
    (q_remove_head ((q_insert_head (some q_new) ['x', 'y'] (some 0) true).1) true 2).2.2
      = ['x', Char.ofNat 0] ∧
    q_size (q_remove_head ((q_insert_head (some q_new) ['x', 'y'] (some 0) true).1) true 2).1
      = 0 ∧
    q_payloads
        (q_remove_head ((q_insert_head (some q_new) ['x', 'y'] (some 0) true).1) true 2).1
      = [] ∧
    (q_insert_head
        (q_remove_head ((q_insert_head (some q_new) ['x', 'y'] (some 0) true).1) true 2).1
        ['z'] (some 1) true).1
      = some { head := [⟨1, ['z']⟩], tail := some 1, size := 1 } ∧
    (q_insert_tail
        (q_remove_head ((q_insert_head (some q_new) ['x', 'y'] (some 0) true).1) true 2).1
        ['z'] (some 1) true).1
      = some { head := [⟨1, ['z']⟩], tail := some 1, size := 1 } :=
  C4_insert_then_remove ['x', 'y'] ['z'] 0 1 2 (by omega)

/-- C5: a successful remove-from-head with capacity at least 1 writes
exactly `min (payload length) (bufferCapacity - 1)` payload characters
plus one NUL terminator, and never writes at or beyond offset
`bufferCapacity`. -/
theorem C5_remove_head_writes_truncated (q : queue_t) (bufsize : Nat)
    (a : list_ele_t) (rest : List list_ele_t) (hq : q.head = a :: rest)
    (hb : 1 ≤ bufsize) :
    (q_remove_head (some q) true bufsize).2.1 = true ∧
    (q_remove_head (some q) true bufsize).2.2
      = a.value.take (min a.value.length (bufsize - 1)) ++ [Char.ofNat 0] ∧
    (q_remove_head (some q) true bufsize).2.2.length
      = min a.value.length (bufsize - 1) + 1 ∧
    (q_remove_head (some q) true bufsize).2.2.length ≤ bufsize := by
  rcases q with ⟨qh, qt, qs⟩
  obtain rfl : qh = a :: rest := hq
  have e2 : (q_remove_head (some ⟨a :: rest, qt, qs⟩) true bufsize).2.2
      = a.value.take (bufsize - 1) ++ [Char.ofNat 0] :=
    strlcpyWritten_real a.value bufsize hb
  have tmin : a.value.take (min a.value.length (bufsize - 1)) = a.value.take (bufsize - 1) := by
    rcases le_total a.value.length (bufsize - 1) with h | h
    · rw [min_eq_left h, List.take_length, List.take_of_length_le h]
    · rw [min_eq_right h]
  refine ⟨rfl, ?_, ?_, ?_⟩
  · rw [e2, tmin]
  · rw [e2]
    simp only [List.length_append, List.length_take, List.length_cons, List.length_nil]
    omega
  · rw [e2]
    simp only [List.length_append, List.length_take, List.length_cons, List.length_nil]
    omega

theorem C5_remove_head_writes_truncated_witness :
    (q_remove_head (some { head := [⟨0, ['a', 'b', 'c']⟩], tail := some 0, size := 1 })
        true 3).2.1 = true ∧
    (q_remove_head (some { head := [⟨0, ['a', 'b', 'c']⟩], tail := some 0, size := 1 })
        true 3).2.2
      = ['a', 'b', Char.ofNat 0] ∧
    (q_remove_head (some { head := [⟨0, ['a', 'b', 'c']⟩], tail := some 0, size := 1 })
        true 3).2.2.length = 3 ∧
    (q_remove_head (some { head := [⟨0, ['a', 'b', 'c']⟩], tail := some 0, size := 1 })
        true 3).2.2.length ≤ 3 :=
  C5_remove_head_writes_truncated
    { head := [⟨0, ['a', 'b', 'c']⟩], tail := some 0, size := 1 } 3 ⟨0, ['a', 'b', 'c']⟩ []
    rfl (by omega)

/-- C8: on success, insert-at-head prepends and insert-at-tail appends a
copy of the text to the payload sequence, incrementing `size` by one
(for insert-at-tail, in any state whose stored `size` is consistent
with emptiness of the chain); and from an empty queue,
insert-tail "banana", insert-tail "apple", insert-head "cherry" yields
the payload sequence [cherry, banana, apple] with size 3. -/
theorem C8_insert_success (q : queue_t) (s : List Char) (id : Nat)
    (h0 : q.size = 0 → q.head = []) :
    ((q_insert_head (some q) s (some id) true).2.1 = true ∧
      ∃ qh, (q_insert_head (some q) s (some id) true).1 = some qh ∧
        qh.head.map list_ele_t.value = s :: q.head.map list_ele_t.value ∧
        qh.size = q.size + 1) ∧
    ((q_insert_tail (some q) s (some id) true).2.1 = true ∧
      ∃ qt, (q_insert_tail (some q) s (some id) true).1 = some qt ∧
        qt.head.map list_ele_t.value = q.head.map list_ele_t.value ++ [s] ∧
        qt.size = q.size + 1) ∧
    q_payloads ((q_insert_head ((q_insert_tail ((q_insert_tail (some q_new)
          ['b', 'a', 'n', 'a', 'n', 'a'] (some 0) true).1)
          ['a', 'p', 'p', 'l', 'e'] (some 1) true).1)
          ['c', 'h', 'e', 'r', 'r', 'y'] (some 2) true).1)
      = [['c', 'h', 'e', 'r', 'r', 'y'], ['b', 'a', 'n', 'a', 'n', 'a'],
         ['a', 'p', 'p', 'l', 'e']] ∧
    q_size ((q_insert_head ((q_insert_tail ((q_insert_tail (some q_new)
          ['b', 'a', 'n', 'a', 'n', 'a'] (some 0) true).1)
          ['a', 'p', 'p', 'l', 'e'] (some 1) true).1)
          ['c', 'h', 'e', 'r', 'r', 'y'] (some 2) true).1)
      = 3 := by
  refine ⟨⟨rfl, _, rfl, rfl, rfl⟩, ?_, rfl, rfl⟩
  by_cases hsz : q.size = 0
  · refine ⟨by simp [q_insert_tail, hsz],
      { head := [⟨id, s⟩], tail := some id, size := q.size + 1 },
      by simp [q_insert_tail, hsz], ?_, rfl⟩
    simp [h0 hsz]
  · refine ⟨by simp [q_insert_tail, hsz],
      { head := q.head ++ [⟨id, s⟩], tail := some id, size := q.size + 1 },
      by simp [q_insert_tail, hsz], ?_, rfl⟩
    simp

/-- C9: reverse applied twice restores the payload sequence of any
queue, and reverse is a no-op on an absent or empty queue. -/
theorem C9_reverse_involution (q : Option queue_t) :
    q_payloads (q_reverse (q_reverse q)) = q_payloads q ∧
    q_reverse none = none ∧
    (∀ qq : queue_t, qq.head = [] → q_reverse (some qq) = some qq) := by
  refine ⟨?_, rfl, ?_⟩
  · rcases q with _ | qq
    · rfl
    · obtain ⟨qq1, hq1⟩ := q_reverse_isSome qq
      rw [hq1, q_reverse_payloads qq1, ← hq1, q_reverse_payloads qq,
          List.reverse_reverse]
  · intro qq hh
    simp [q_reverse, hh]

theorem C9_reverse_involution_witness :
    q_reverse (some q_new) = some q_new :=
  (C9_reverse_involution (some q_new)).2.2 q_new rfl

theorem C8_insert_success_witness :
    ((q_insert_head (some q_new) ['x'] (some 0) true).2.1 = true ∧
      ∃ qh, (q_insert_head (some q_new) ['x'] (some 0) true).1 = some qh ∧
        qh.head.map list_ele_t.value = [['x']] ∧
        qh.size = 1) ∧
    ((q_insert_tail (some q_new) ['x'] (some 0) true).2.1 = true ∧
      ∃ qt, (q_insert_tail (some q_new) ['x'] (some 0) true).1 = some qt ∧
        qt.head.map list_ele_t.value = [['x']] ∧
        qt.size = 1) ∧
    q_payloads ((q_insert_head ((q_insert_tail ((q_insert_tail (some q_new)
          ['b', 'a', 'n', 'a', 'n', 'a'] (some 0) true).1)
          ['a', 'p', 'p', 'l', 'e'] (some 1) true).1)
          ['c', 'h', 'e', 'r', 'r', 'y'] (some 2) true).1)
      = [['c', 'h', 'e', 'r', 'r', 'y'], ['b', 'a', 'n', 'a', 'n', 'a'],
         ['a', 'p', 'p', 'l', 'e']] ∧
    q_size ((q_insert_head ((q_insert_tail ((q_insert_tail (some q_new)
          ['b', 'a', 'n', 'a', 'n', 'a'] (some 0) true).1)
          ['a', 'p', 'p', 'l', 'e'] (some 1) true).1)
          ['c', 'h', 'e', 'r', 'r', 'y'] (some 2) true).1)
      = 3 :=
  C8_insert_success q_new ['x'] 0 (fun _ => rfl)
